import Mathlib

/-!
Verification of the date-resolution engine of `gantt/gantt.py`
(repository CCSD_PROFILE).

Dates are modelled as proleptic-Gregorian ordinals (`ℤ`), exactly the
integers produced by Python's `datetime.date.toordinal` (day 1 is
0001-01-01, a Monday).  `datetime.timedelta(days=n)` arithmetic becomes
integer addition, `date.weekday()` becomes `(d - 1) % 7`.

The module-level calendar state of the source (`NOT_WORKED_DAYS` and
`VACATIONS`) is passed explicitly as a `Cal` value.  The unbounded
`while` loops of the source walk day by day; they are embedded as
fuel-indexed recursions returning `Option`/`Except`, with fuel
exhaustion reported as `Err.outOfFuel`.  Python runtime exceptions
(`NameError` from the undefined `Milestone` class, `TypeError` from
comparisons against `None`, `AttributeError` from attribute access on
`None`, `IndexError`, the explicit `raise ValueError`) are embedded as
the corresponding `Err` constructors.
-/

namespace Gantt

/-- `date.weekday()`: 0 = Monday … 6 = Sunday.  Ordinal 1 (0001-01-01)
is a Monday. -/
def weekday (d : ℤ) : ℤ := (d - 1) % 7

/-- Leap year test of the Gregorian calendar (as in Python
`calendar.isleap`). -/
def isLeap (y : ℤ) : Bool := y % 4 == 0 && (y % 100 != 0 || y % 400 == 0)

/-- Days in month `m` of year `y`. -/
def daysInMonth (y m : ℤ) : ℤ :=
  if m == 2 then (if isLeap y then 29 else 28)
  else if m == 4 || m == 6 || m == 9 || m == 11 then 30
  else 31

/-- Days in year `y` strictly before month `m`. -/
def daysBeforeMonth (y : ℤ) (m : ℕ) : ℤ :=
  (List.range (m - 1)).foldl (fun a i => a + daysInMonth y (i + 1)) 0

/-- `datetime.date(y, m, d).toordinal()` for the proleptic Gregorian
calendar. -/
def ymdToOrdinal (y : ℤ) (m d : ℕ) : ℤ :=
  365 * (y - 1) + (y - 1).fdiv 4 - (y - 1).fdiv 100 + (y - 1).fdiv 400
    + daysBeforeMonth y m + d

/-- The module-level calendar state of `gantt.py`: `NOT_WORKED_DAYS`
(list of weekday numbers, default `[5, 6]`) and `VACATIONS` (list of
dates). -/
structure Cal where
  notWorked : List ℤ
  vacations : List ℤ
deriving Repr

/-- The default calendar: weekends off, no vacations
(`NOT_WORKED_DAYS = [5, 6]`, `VACATIONS = []`). -/
def defaultCal : Cal := ⟨[5, 6], []⟩

/-- `d.weekday() in _not_worked_days() or d in VACATIONS` — the test
used by every day-walking loop in `gantt.py`. -/
def nonWorked (cal : Cal) (d : ℤ) : Bool :=
  decide (weekday d ∈ cal.notWorked) || decide (d ∈ cal.vacations)

/-- `while start.weekday() in _not_worked_days() or start in VACATIONS:
start = start + timedelta(days=1)` — roll a date forward to the next
working day.  `none` = fuel exhausted. -/
def nextWorking (cal : Cal) : ℕ → ℤ → Option ℤ
  | 0, d => if nonWorked cal d then none else some d
  | Nat.succ f, d => if nonWorked cal d then nextWorking cal f (d + 1) else some d

/-- `while real_end.weekday() in _not_worked_days() or real_end in
VACATIONS: real_end -= timedelta(days=1)` — roll a date backward to the
last preceding working day (from `Task.end_date`). -/
def prevWorking (cal : Cal) : ℕ → ℤ → Option ℤ
  | 0, d => if nonWorked cal d then none else some d
  | Nat.succ f, d => if nonWorked cal d then prevWorking cal f (d - 1) else some d

/-- The forward duration-counting loop of `Task.end_date` (also reused
by its infeasible-deadline branch):

    while duration > 1 or (current_day.weekday() in _not_worked_days()
                           or current_day in VACATIONS):
        if not (...non-working...):
            real_duration += 1; duration -= 1
        else:
            real_duration += 1
        current_day = self.start_date() + timedelta(days=real_duration)
    self.cache_end_date = self.start_date() + timedelta(days=real_duration)

State: `rd` = `real_duration`, `dur` = the decreasing `duration` copy;
`current_day` at the head of the loop is always `sd + rd`. -/
def fwdWalk (cal : Cal) (sd : ℤ) : ℕ → ℤ → ℤ → Option ℤ
  | 0, rd, dur =>
    if 1 < dur ∨ nonWorked cal (sd + rd) = true then none
    else some (sd + rd)
  | Nat.succ f, rd, dur =>
    if 1 < dur ∨ nonWorked cal (sd + rd) = true then
      if nonWorked cal (sd + rd) then fwdWalk cal sd f (rd + 1) dur
      else fwdWalk cal sd f (rd + 1) (dur - 1)
    else some (sd + rd)

/-- The backward walk of `Task.start_date`'s stop-and-duration branch:

    current_day = self.stop; real_duration = 0; duration = self.duration
    while duration > 0:
        if not (...current_day non-working...):
            real_duration += 1; duration -= 1
        else:
            real_duration += 1
        current_day = self.stop - timedelta(days=real_duration)
    current_day = self.stop - timedelta(days=real_duration - 1)

`current_day` at the head of the loop is `stop - rd`; the final result
is `stop - (rd - 1)`. -/
def bwdWalk (cal : Cal) (stop : ℤ) : ℕ → ℤ → ℤ → Option ℤ
  | 0, rd, dur =>
    if 0 < dur then none else some (stop - (rd - 1))
  | Nat.succ f, rd, dur =>
    if 0 < dur then
      if nonWorked cal (stop - rd) then bwdWalk cal stop f (rd + 1) dur
      else bwdWalk cal stop f (rd + 1) (dur - 1)
    else some (stop - (rd - 1))

/-- Python runtime outcomes of the resolver, plus fuel exhaustion for
the unbounded day-walking loops. -/
inductive Err where
  /-- `isinstance(t, Milestone)` with `Milestone` defined nowhere. -/
  | nameError
  /-- `None` compared against a date or an int (Python 3 `TypeError`). -/
  | typeError
  /-- attribute access (`.weekday()`) on `None`. -/
  | attributeError
  /-- `self.depends_of[0]` on an empty list. -/
  | indexError
  /-- the `raise ValueError` at the end of `Task.end_date`. -/
  | valueError
  /-- a day-walking `while` loop ran out of fuel (would not have
  terminated, or needs more fuel). -/
  | outOfFuel
deriving DecidableEq, Repr

/-- Modelled from the spec: the `Resource` class is absent from the
source (only `r.name` and `r.is_available(day)` are called on it by
`Task.check_conflicts_between_task_and_resources_vacations`); the spec
describes it as a name plus a per-date availability predicate. -/
structure Resource where
  name : String
  available : ℤ → Bool

/-- A `Task` of `gantt.py`, restricted to the fields the resolver and
the conflict detector read: `name`, `start`, `stop`, `duration`,
`depends_of` (`None`, or a list of shared references to other tasks)
and `resources`. -/
inductive Task where
  | mk (name : String) (start stop : Option ℤ) (duration : Option ℤ)
       (dependsOf : Option (List Task)) (resources : Option (List Resource)) : Task

def Task.name : Task → String
  | .mk n _ _ _ _ _ => n

def Task.start : Task → Option ℤ
  | .mk _ s _ _ _ _ => s

def Task.stop : Task → Option ℤ
  | .mk _ _ st _ _ _ => st

def Task.duration : Task → Option ℤ
  | .mk _ _ _ du _ _ => du

def Task.dependsOf : Task → Option (List Task)
  | .mk _ _ _ _ dep _ => dep

def Task.resources : Task → Option (List Resource)
  | .mk _ _ _ _ _ res => res

/-- `Task.start_date(self)` (lines 347–502), on a fresh cache, given an
evaluator `depEnd` for `end_date` of dependency tasks and fuel `f` for
the day-walking loops.  Branch by branch:

* `start` set, `depends_of is None`: roll `start` to the next working
  day and return it.
* `start` set, `depends_of` a list: roll `start` forward, then
  `for t in self.depends_of: if isinstance(t, Milestone): ...` —
  `Milestone` is defined nowhere in the source, so a non-empty list
  raises `NameError` at the first iteration (before any `t.end_date()`
  call); an empty list skips the loop, rolls `prev_task_end` (already a
  working day) forward again and returns it.
* `start` unset, `duration` unset: `current_day = self.start` is
  `None`; with no dependencies the cache is set to `None` and returned;
  with a dependency list, `self.depends_of[0].end_date()` is evaluated
  (`IndexError` on an empty list) and then the `isinstance` loop raises
  `NameError`.
* `start` unset, `duration` set, `depends_of` set, `stop` unset:
  `self.depends_of[0].end_date()` then the `isinstance` loop —
  `IndexError` or `NameError` as above; the code after the loop
  (lines 440–446) is unreachable.
* `start` unset, `stop` set (`duration` set here): backward
  duration-walk from `stop`; then with no dependencies the walk result
  is returned, and with a dependency list `IndexError`/`NameError` as
  above (lines 477–494 unreachable).
* remaining case (`start`/`stop` unset, `duration` set, no
  dependencies): no branch assigns the cache; the final
  `return self.cache_start_date` yields `None`. -/
def startCompute (cal : Cal) (f : ℕ) (depEnd : Task → Except Err ℤ)
    (start stop : Option ℤ) (duration : Option ℤ)
    (deps : Option (List Task)) : Except Err (Option ℤ) :=
  match start with
  | some s =>
    match nextWorking cal f s with
    | none => .error .outOfFuel
    | some s1 =>
      match deps with
      | none => .ok (some s1)
      | some [] =>
        match nextWorking cal f s1 with
        | none => .error .outOfFuel
        | some s2 => .ok (some s2)
      | some (_ :: _) => .error .nameError
  | none =>
    match duration with
    | none =>
      match deps with
      | none => .ok none
      | some [] => .error .indexError
      | some (d0 :: _) =>
        match depEnd d0 with
        | .error e => .error e
        | .ok _ => .error .nameError
    | some du =>
      match deps, stop with
      | some [], none => .error .indexError
      | some (d0 :: _), none =>
        match depEnd d0 with
        | .error e => .error e
        | .ok _ => .error .nameError
      | dep, some st =>
        match bwdWalk cal st f 0 du with
        | none => .error .outOfFuel
        | some cd =>
          match dep with
          | none => .ok (some cd)
          | some [] => .error .indexError
          | some (d0 :: _) =>
            match depEnd d0 with
            | .error e => .error e
            | .ok _ => .error .nameError
      | none, none => .ok none

/-- `Task.end_date(self)` (lines 505–565), on a fresh cache, given the
value `sd` of `self.start_date()` (cached, hence identical at every
call site inside the method) and fuel `f`.

* If `self.duration is None or self.start is None and self.stop is not
  None`: `real_end = self.stop` (`AttributeError` if `stop` is `None`),
  rolled backward to a working day; compare `real_end <=
  self.start_date()` (`TypeError` when the start resolved to `None`);
  if the deadline is infeasible, re-count `duration` working days
  forward from the start (`TypeError` when `duration` is `None`,
  because of `while duration > 1`), else return `real_end`.
* Else if `self.stop is None`: count `duration` working days forward
  from `self.start_date()` (`AttributeError` when that is `None`).
* Else (`start`, `stop` and `duration` all set): `raise ValueError`. -/
def endCompute (cal : Cal) (f : ℕ) (sd : Except Err (Option ℤ))
    (start stop : Option ℤ) (duration : Option ℤ) : Except Err ℤ :=
  if duration.isNone || (start.isNone && stop.isSome) then
    match stop with
    | none => .error .attributeError
    | some st =>
      match prevWorking cal f st with
      | none => .error .outOfFuel
      | some re =>
        match sd with
        | .error e => .error e
        | .ok none => .error .typeError
        | .ok (some s) =>
          if re ≤ s then
            match duration with
            | none => .error .typeError
            | some du =>
              match fwdWalk cal s f 0 du with
              | none => .error .outOfFuel
              | some e => .ok e
          else .ok re
  else if stop.isNone then
    match sd with
    | .error e => .error e
    | .ok none => .error .attributeError
    | .ok (some s) =>
      match duration with
      | none => .error .typeError
      | some du =>
        match fwdWalk cal s f 0 du with
        | none => .error .outOfFuel
        | some e => .ok e
  else .error .valueError

/-- Joint fresh-cache evaluation of `start_date`/`end_date` for a task.
`end_date` calls `self.start_date()`, whose cached value is the `sd`
component computed here at the same fuel level; `start_date` calls
`end_date()` of dependency tasks at one fuel level lower. -/
def taskDates (cal : Cal) : ℕ → Task → Except Err (Option ℤ) × Except Err ℤ
  | 0, _ => (.error .outOfFuel, .error .outOfFuel)
  | Nat.succ f, t =>
    let sd := startCompute cal f (fun d => (taskDates cal f d).2)
      t.start t.stop t.duration t.dependsOf
    (sd, endCompute cal f sd t.start t.stop t.duration)

/-- `Task.start_date()` on a fresh cache. -/
def Task.start_date (cal : Cal) (fuel : ℕ) (t : Task) : Except Err (Option ℤ) :=
  (taskDates cal fuel t).1

/-- `Task.end_date()` on a fresh cache. -/
def Task.end_date (cal : Cal) (fuel : ℕ) (t : Task) : Except Err ℤ :=
  (taskDates cal fuel t).2

/-- `Task.start_date` with its memoization made explicit (lines
352–353 and the `self.cache_start_date = ...` assignments): takes the
current `cache_start_date`, returns the result together with the new
`cache_start_date`.  A cached date short-circuits; otherwise the body
runs and every returning path stores exactly the value it returns (the
no-branch-taken path stores `None`, i.e. leaves the cache empty). -/
def Task.startDateCached (cal : Cal) (fuel : ℕ) (t : Task)
    (cache : Option ℤ) : Except Err (Option ℤ × Option ℤ) :=
  match cache with
  | some v => .ok (some v, some v)
  | none =>
    match Task.start_date cal fuel t with
    | .error e => .error e
    | .ok r => .ok (r, r)

/-- `Task.end_date` with its memoization made explicit (lines 511–512
and the `self.cache_end_date = ...` assignments). -/
def Task.endDateCached (cal : Cal) (fuel : ℕ) (t : Task)
    (cache : Option ℤ) : Except Err (ℤ × Option ℤ) :=
  match cache with
  | some v => .ok (v, some v)
  | none =>
    match Task.end_date cal fuel t with
    | .error e => .error e
    | .ok r => .ok (r, some r)

/-- The `depends_of` argument of `Task.__init__`: `None`, a single
task, or a list of tasks (lines 307–312 normalize it). -/
inductive DependsArg where
  | noneArg
  | one (t : Task)
  | many (ts : List Task)

/-- `depends_of is None` on the constructor argument. -/
def DependsArg.isNoneArg : DependsArg → Bool
  | .noneArg => true
  | .one _ => false
  | .many _ => false

/-- Lines 307–312: a list is kept, a single task is wrapped in a list,
`None` stays `None`. -/
def DependsArg.normalize : DependsArg → Option (List Task)
  | .noneArg => none
  | .one t => some [t]
  | .many ts => some ts

/-- `Task.__init__` (lines 261–322).  `nonecount` counts the unset
members of `(start, stop, duration)`; when it differs from 1 and the
duration-plus-dependencies fallback does not apply, the constructor
logs an error-level diagnostic (`__LOG__.error`) — the `raise
ValueError` that would abort construction is commented out in the
source.  The returned flag records whether that diagnostic fired; the
task object is built from the given fields regardless, with
`depends_of` normalized to `None` or a list. -/
def taskInit (name : String) (start stop : Option ℤ) (duration : Option ℤ)
    (dependsOf : DependsArg) (resources : Option (List Resource)) :
    Bool × Task :=
  let nonecount : ℕ :=
    (if start.isNone then 1 else 0) + (if stop.isNone then 1 else 0)
      + (if duration.isNone then 1 else 0)
  ((nonecount != 1) && (duration.isNone || dependsOf.isNoneArg),
    Task.mk name start stop duration dependsOf.normalize resources)

/-- The body of the range loop of `add_vacations` (lines 194–198):
appends the dates `s, s+1, …, s+n-1` to the vacation list, each only
if not already present. -/
def addRange (vac : List ℤ) (s : ℤ) : ℕ → List ℤ
  | 0 => vac
  | Nat.succ n => addRange (if s ∈ vac then vac else vac ++ [s]) (s + 1) n

/-- `add_vacations(start_date, end_date=None)` (lines 176–202) acting
on the global `VACATIONS` list, passed and returned explicitly.  With
no `end_date` the single date is appended if absent; otherwise the
`while start_date <= end_date` loop appends each date of the closed
range if absent ( `(e - s + 1).toNat` is the number of iterations,
zero when `e < s`). -/
def add_vacations (vac : List ℤ) (s : ℤ) (e : Option ℤ) : List ℤ :=
  match e with
  | none => if s ∈ vac then vac else vac ++ [s]
  | some e => addRange vac s (e - s + 1).toNat

/-- One `{'resource': r.name, 'date': cday, 'task': self.name}` record
of `Task.check_conflicts_between_task_and_resources_vacations`. -/
structure Conflict where
  resource : String
  date : ℤ
  task : String
deriving DecidableEq, Repr

/-- The inner `while cday <= self.end_date()` loop of
`check_conflicts_between_task_and_resources_vacations` (lines
769–774) for one resource, with `n` the number of remaining days:
a record is appended when `cday.weekday() not in _not_worked_days()
and not r.is_available(cday)` — note that the global `VACATIONS` list
is not consulted here. -/
def conflictScan (cal : Cal) (rname tname : String) (avail : ℤ → Bool) :
    ℤ → ℕ → List Conflict
  | _, 0 => []
  | cday, Nat.succ n =>
    if decide (weekday cday ∉ cal.notWorked) && !avail cday then
      ⟨rname, cday, tname⟩ :: conflictScan cal rname tname avail (cday + 1) n
    else conflictScan cal rname tname avail (cday + 1) n

/-- `Task.check_conflicts_between_task_and_resources_vacations(self)`
(lines 758–775).  `None` resources (and an empty resource list) yield
`[]`; otherwise the first iteration evaluates `self.start_date()` and
`self.end_date()` (both cached thereafter, errors propagate; a `None`
start makes `cday <= self.end_date()` a `TypeError`), and each
resource contributes its scan over the days `start_date … end_date`
in order. -/
def check_conflicts (cal : Cal) (fuel : ℕ) (t : Task) :
    Except Err (List Conflict) :=
  match t.resources with
  | none => .ok []
  | some [] => .ok []
  | some rs =>
    match Task.start_date cal fuel t with
    | .error e => .error e
    | .ok sd =>
      match Task.end_date cal fuel t with
      | .error e => .error e
      | .ok ed =>
        match sd with
        | none => .error .typeError
        | some s =>
          .ok (rs.foldl
            (fun acc r =>
              acc ++ conflictScan cal r.name t.name r.available s (ed - s + 1).toNat)
            [])

/-- A member of a `Project`: `add_task` accepts plain tasks and
sub-projects alike. -/
inductive PItem where
  | task (t : Task) : PItem
  | proj (name : String) (members : List PItem) : PItem

/-- Python 3 `<` on the values returned by member `start_date()` calls:
comparing `None` with anything raises `TypeError`. -/
def pyLtOpt : Option ℤ → Option ℤ → Except Err Bool
  | some a, some b => .ok (decide (a < b))
  | _, _ => .error .typeError

/-- The `for t in self.tasks` loop of `Project.start_date` (lines
916–918): keep the smaller of the running `first` and each member's
start date. -/
def projFoldStart (itemEval : PItem → Except Err (Option ℤ)) :
    Option ℤ → List PItem → Except Err (Option ℤ)
  | first, [] => .ok first
  | first, m :: ms =>
    match itemEval m with
    | .error e => .error e
    | .ok v =>
      match pyLtOpt v first with
      | .error e => .error e
      | .ok b => projFoldStart itemEval (if b then v else first) ms

/-- The `for t in self.tasks` loop of `Project.end_date` (lines
931–933): keep the larger of the running `last` and each member's end
date (end dates are never `None`, so no `TypeError` can arise). -/
def projFoldEnd (itemEval : PItem → Except Err ℤ) :
    ℤ → List PItem → Except Err ℤ
  | last, [] => .ok last
  | last, m :: ms =>
    match itemEval m with
    | .error e => .error e
    | .ok v => projFoldEnd itemEval (if last < v then v else last) ms

/-- `datetime.date(9999, 1, 1)`, the sentinel returned by
`Project.start_date` on an empty project (line 913). -/
def date9999 : ℤ := ymdToOrdinal 9999 1 1

/-- `datetime.date(1970, 1, 1)`, the sentinel returned by
`Project.end_date` on an empty project (line 928). -/
def date1970 : ℤ := ymdToOrdinal 1970 1 1

/-- `start_date()` of a project member (lines 907–919): a task resolves
via `Task.start_date`; an empty sub-project logs a warning and returns
`date(9999, 1, 1)`; a non-empty one seeds `first` with its first
member's start and folds `<` over all members (the first member is
compared against itself, harmlessly). -/
def itemStart (cal : Cal) : ℕ → PItem → Except Err (Option ℤ)
  | 0, _ => .error .outOfFuel
  | Nat.succ f, .task t => Task.start_date cal (Nat.succ f) t
  | Nat.succ f, .proj _ ms =>
    match ms with
    | [] => .ok (some date9999)
    | m :: _ =>
      match itemStart cal f m with
      | .error e => .error e
      | .ok first => projFoldStart (itemStart cal f) first ms

/-- `end_date()` of a project member (lines 922–934), mirror image of
`itemStart` with the `date(1970, 1, 1)` sentinel and `>`. -/
def itemEnd (cal : Cal) : ℕ → PItem → Except Err ℤ
  | 0, _ => .error .outOfFuel
  | Nat.succ f, .task t => Task.end_date cal (Nat.succ f) t
  | Nat.succ f, .proj _ ms =>
    match ms with
    | [] => .ok date1970
    | m :: _ =>
      match itemEnd cal f m with
      | .error e => .error e
      | .ok last => projFoldEnd (itemEnd cal f) last ms

/-- `Project.start_date()` for a project with the given member list. -/
def Project.start_date (cal : Cal) (fuel : ℕ) (name : String)
    (members : List PItem) : Except Err (Option ℤ) :=
  itemStart cal fuel (.proj name members)

/-- `Project.end_date()` for a project with the given member list. -/
def Project.end_date (cal : Cal) (fuel : ℕ) (name : String)
    (members : List PItem) : Except Err ℤ :=
  itemEnd cal fuel (.proj name members)

/-- Number of working days among the `n` consecutive dates
`a, a+1, …, a+n-1` (specification-side measure for the duration
claims). -/
def workCountN (cal : Cal) (a : ℤ) : ℕ → ℕ
  | 0 => 0
  | Nat.succ n => (if nonWorked cal a then 0 else 1) + workCountN cal (a + 1) n

/-- Number of working days in the closed date interval `[a, b]`. -/
def workCount (cal : Cal) (a b : ℤ) : ℕ :=
  workCountN cal a (b + 1 - a).toNat

/-- Task A of the spec's test scenario: `start = 2024-01-01` (a
Monday), `duration = 5`. -/
def taskA : Task := .mk "A" (some (ymdToOrdinal 2024 1 1)) none (some 5) none none

/-- Task B of the spec's test scenario: `duration = 3`, depends on
Task A, no `start`. -/
def taskB : Task := .mk "B" none none (some 3) (some [taskA]) none

/-- A task with only `stop` set and no dependencies (spec §4.1 case
3). -/
def taskStopOnly : Task := .mk "S" none (some (ymdToOrdinal 2024 1 5)) none none none

/-- A deadline-driven task with a dependency: `stop = 2024-01-10`,
`duration = 2`, depends on Task A. -/
def taskC : Task := .mk "C" none (some (ymdToOrdinal 2024 1 10)) (some 2)
  (some [taskA]) none

/-- Weekends off plus a vacation on Tuesday 2024-01-02. -/
def calVac : Cal := ⟨[5, 6], [ymdToOrdinal 2024 1 2]⟩

/-- A resource unavailable exactly on 2024-01-02. -/
def resR : Resource := ⟨"R", fun d => decide (d ≠ ymdToOrdinal 2024 1 2)⟩

/-- A two-working-day task spanning the 2024-01-02 vacation, with
`resR` assigned. -/
def taskR : Task := .mk "T7" (some (ymdToOrdinal 2024 1 1)) none (some 2) none
  (some [resR])

/-- One-day task starting Monday 2024-01-01. -/
def taskU1 : Task := .mk "U1" (some (ymdToOrdinal 2024 1 1)) none (some 1) none none

/-- One-day task starting Wednesday 2024-01-03. -/
def taskU2 : Task := .mk "U2" (some (ymdToOrdinal 2024 1 3)) none (some 1) none none

lemma workCount_of_lt {cal : Cal} {a b : ℤ} (h : b < a) : workCount cal a b = 0 := by
  have hz : (b + 1 - a).toNat = 0 := by omega
  rw [workCount, hz]
  rfl

lemma workCount_peel {cal : Cal} {a b : ℤ} (h : a ≤ b) :
    workCount cal a b = (if nonWorked cal a then 0 else 1) + workCount cal (a + 1) b := by
  have hs : (b + 1 - a).toNat = (b + 1 - (a + 1)).toNat + 1 := by omega
  rw [workCount, hs, workCount]
  rfl

lemma workCount_pos {cal : Cal} :
    ∀ (n : ℕ) (a b : ℤ), b - a = n → a ≤ b → nonWorked cal b = false →
      1 ≤ workCount cal a b := by
  intro n
  induction n with
  | zero =>
    intro a b hn hab hw
    have hba : a = b := by omega
    subst hba
    rw [workCount_peel le_rfl, hw,
      workCount_of_lt (show a < a + 1 by omega)]
    simp
  | succ n ih =>
    intro a b hn hab hw
    rw [workCount_peel hab]
    have h1 : 1 ≤ workCount cal (a + 1) b := ih (a + 1) b (by omega) (by omega) hw
    cases hwa : nonWorked cal a
    · simp
    · simp
      omega

lemma workCount_pos' {cal : Cal} {a b : ℤ} (hab : a ≤ b)
    (hw : nonWorked cal b = false) : 1 ≤ workCount cal a b :=
  workCount_pos (b - a).toNat a b (by omega) hab hw

lemma fwdWalk_sound {cal : Cal} {sd : ℤ} :
    ∀ (fuel : ℕ) (rd dur : ℤ) (e : ℤ),
      fwdWalk cal sd fuel rd dur = some e →
      nonWorked cal e = false ∧ sd + rd ≤ e ∧
        (workCount cal (sd + rd) e : ℤ) = max dur 1 := by
  intro fuel
  induction fuel with
  | zero =>
    intro rd dur e h
    simp only [fwdWalk] at h
    split at h
    · simp at h
    · rename_i hc
      rw [not_or] at hc
      obtain ⟨hdur, hw⟩ := hc
      injection h with h
      subst h
      refine ⟨by simpa using hw, le_refl _, ?_⟩
      rw [workCount_peel le_rfl,
        workCount_of_lt (show sd + rd < sd + rd + 1 by omega)]
      rw [Bool.not_eq_true] at hw
      rw [hw, max_eq_right (show dur ≤ 1 by omega)]
      simp
  | succ f ih =>
    intro rd dur e h
    simp only [fwdWalk] at h
    split at h
    · rename_i hc
      split at h
      · rename_i hw
        obtain ⟨he, hle, hcount⟩ := ih (rd + 1) dur e h
        have harg : sd + (rd + 1) = sd + rd + 1 := by ring
        rw [harg] at hle hcount
        refine ⟨he, by omega, ?_⟩
        rw [workCount_peel (show sd + rd ≤ e by omega), hw]
        simpa using hcount
      · rename_i hw
        have hdur : 1 < dur := by
          rcases hc with h1 | h2
          · exact h1
          · exact absurd h2 hw
        obtain ⟨he, hle, hcount⟩ := ih (rd + 1) (dur - 1) e h
        have harg : sd + (rd + 1) = sd + rd + 1 := by ring
        rw [harg] at hle hcount
        rw [max_eq_left (show (1:ℤ) ≤ dur - 1 by omega)] at hcount
        refine ⟨he, by omega, ?_⟩
        rw [Bool.not_eq_true] at hw
        rw [workCount_peel (show sd + rd ≤ e by omega), hw,
          max_eq_left (show (1:ℤ) ≤ dur by omega)]
        push_cast
        omega
    · rename_i hc
      rw [not_or] at hc
      obtain ⟨hdur, hw⟩ := hc
      injection h with h
      subst h
      refine ⟨by simpa using hw, le_refl _, ?_⟩
      rw [workCount_peel le_rfl,
        workCount_of_lt (show sd + rd < sd + rd + 1 by omega)]
      rw [Bool.not_eq_true] at hw
      rw [hw, max_eq_right (show dur ≤ 1 by omega)]
      simp

/-- C1.  With the default calendar, Task A (`start = 2024-01-01`,
`duration = 5`) resolves to the working span 2024-01-01 … 2024-01-05,
but Task B — whose only anchors are `duration = 3` and the dependency
on A — never obtains the claimed dates 2024-01-08/2024-01-10:
`start_date()` reaches `isinstance(t, Milestone)` in the
duration-plus-dependencies branch, and `Milestone` is not defined
anywhere in the source, so both queries raise `NameError`. -/
theorem c1_dependency_chain_raises :
    Task.start_date defaultCal 100 taskA = .ok (some (ymdToOrdinal 2024 1 1)) ∧
    Task.end_date defaultCal 100 taskA = .ok (ymdToOrdinal 2024 1 5) ∧
    Task.start_date defaultCal 100 taskB = .error .nameError ∧
    Task.end_date defaultCal 100 taskB = .error .nameError :=
  ⟨rfl, rfl, rfl, rfl⟩

/-- C4.  The Milestone offset rule cannot fire on any input: no
`Milestone` can be constructed (the class is absent from the source),
and any dependency whatsoever — here on the deadline-driven task C
with `stop = 2024-01-10`, `duration = 2` and a dependency on Task A —
makes `start_date()` raise `NameError` at the `isinstance(t,
Milestone)` test before any predecessor-end contribution is
computed. -/
theorem c4_milestone_branch_raises :
    Task.start_date defaultCal 100 taskC = .error .nameError ∧
    Task.end_date defaultCal 100 taskC = .error .nameError :=
  ⟨rfl, rfl⟩

/-- C3.  For a task with `start` and `duration` unset, `stop` set and
no dependencies, `start_date()` returns `None`, not the literal
`stop`: line 396 reads `current_day = self.start` (which is unset) in
the branch whose comment says start and stop are fixed, and the
no-dependency arm returns that value. -/
theorem c3_stop_only_returns_none :
    (∀ (cal : Cal) (f : ℕ) (name : String) (st : ℤ)
        (res : Option (List Resource)),
      Task.start_date cal (f + 1) (Task.mk name none (some st) none none res)
        = .ok none) ∧
    Task.start_date defaultCal 100 taskStopOnly = .ok none := by
  refine ⟨?_, rfl⟩
  intro cal f name st res
  simp [Task.start_date, taskDates, startCompute, Task.start, Task.stop,
    Task.duration, Task.dependsOf]

/-- C9.  Any task whose dependency list is non-empty can never resolve
a start date: every dependency-handling branch of `start_date` either
propagates a failure of the first dependency's `end_date()` or reaches
`isinstance(t, Milestone)` and raises `NameError`, since `Milestone`
is defined nowhere. -/
theorem c9_nonempty_deps_never_resolve :
    ∀ (cal : Cal) (fuel : ℕ) (t : Task) (ds : List Task) (v : Option ℤ),
      t.dependsOf = some ds → ds ≠ [] → Task.start_date cal fuel t ≠ .ok v := by
  intro cal fuel t ds v hdep hne
  obtain ⟨nm, s0, st0, du0, dep0, res0⟩ := t
  simp only [Task.dependsOf] at hdep
  subst hdep
  obtain ⟨d0, tl, rfl⟩ : ∃ d0 tl, ds = d0 :: tl := by
    cases ds with
    | nil => exact absurd rfl hne
    | cons a b => exact ⟨a, b, rfl⟩
  cases fuel with
  | zero => simp [Task.start_date, taskDates]
  | succ f =>
    simp only [Task.start_date, taskDates, startCompute, Task.start, Task.stop,
      Task.duration, Task.dependsOf]
    cases s0 with
    | some s =>
      cases hnw : nextWorking cal f s with
      | none => simp [hnw]
      | some s1 => simp [hnw]
    | none =>
      cases du0 with
      | none =>
        cases hde : (taskDates cal f d0).2 with
        | error e => simp [hde]
        | ok w => simp [hde]
      | some du =>
        cases st0 with
        | none =>
          cases hde : (taskDates cal f d0).2 with
          | error e => simp [hde]
          | ok w => simp [hde]
        | some st =>
          cases hbw : bwdWalk cal st f 0 du with
          | none => simp [hbw]
          | some cd =>
            cases hde : (taskDates cal f d0).2 with
            | error e => simp [hbw, hde]
            | ok w => simp [hbw, hde]

/-- Witness for C9 at the concrete Task B of the spec's scenario: its
start never becomes the spec-intended 2024-01-08. -/
theorem c9_nonempty_deps_never_resolve_witness :
    Task.start_date defaultCal 100 taskB ≠ .ok (some (ymdToOrdinal 2024 1 8)) :=
  c9_nonempty_deps_never_resolve defaultCal 100 taskB [taskA]
    (some (ymdToOrdinal 2024 1 8)) rfl (by simp)

/-- C5.  `start_date`/`end_date` with the cache made explicit: a first
call from an empty cache stores exactly the value it returns, and a
second call with that cache returns the identical value and leaves the
cache unchanged. -/
theorem c5_repeated_calls_identical (cal : Cal) (fuel : ℕ) (t : Task) :
    (∀ v c, Task.startDateCached cal fuel t none = .ok (v, c) →
      c = v ∧ Task.startDateCached cal fuel t c = .ok (v, c)) ∧
    (∀ w c, Task.endDateCached cal fuel t none = .ok (w, c) →
      c = some w ∧ Task.endDateCached cal fuel t c = .ok (w, c)) := by
  constructor
  · intro v c h
    simp only [Task.startDateCached] at h ⊢
    cases hs : Task.start_date cal fuel t with
    | error e => rw [hs] at h; simp at h
    | ok r =>
      rw [hs] at h
      simp only [Except.ok.injEq, Prod.mk.injEq] at h
      obtain ⟨rfl, rfl⟩ := h
      refine ⟨rfl, ?_⟩
      cases r with
      | none => rfl
      | some x => rfl
  · intro w c h
    simp only [Task.endDateCached] at h ⊢
    cases hs : Task.end_date cal fuel t with
    | error e => rw [hs] at h; simp at h
    | ok r =>
      rw [hs] at h
      simp only [Except.ok.injEq, Prod.mk.injEq] at h
      obtain ⟨rfl, rfl⟩ := h
      exact ⟨rfl, rfl⟩

/-- C2.  For a task with `duration = d ≥ 1` and no `stop`, whenever
`start_date()` resolves to a date `s` and `end_date()` returns `e`,
then `e` is the `d`-th working day counting `s` itself as day 1: `s ≤
e`, `e` is a working day, and the closed interval `[s, e]` contains
exactly `d` working days (so when `s` is itself a working day and
`d = 1`, `e = s`). -/
theorem c2_end_counts_duration_working_days :
    ∀ (cal : Cal) (fuel : ℕ) (t : Task) (d s e : ℤ),
      t.duration = some d → 1 ≤ d → t.stop = none →
      Task.start_date cal fuel t = .ok (some s) →
      Task.end_date cal fuel t = .ok e →
      s ≤ e ∧ nonWorked cal e = false ∧ (workCount cal s e : ℤ) = d ∧
        (d = 1 → nonWorked cal s = false → e = s) := by
  intro cal fuel t d s e hdur hd hstop hsd hed
  cases fuel with
  | zero => simp [Task.start_date, taskDates] at hsd
  | succ f =>
    simp only [Task.start_date, taskDates] at hsd
    simp only [Task.end_date, taskDates] at hed
    rw [hsd, hdur, hstop] at hed
    simp only [endCompute, Option.isNone_some, Option.isSome_none,
      Bool.and_false, Bool.or_false, Bool.false_eq_true, if_false,
      Option.isNone_none, if_true] at hed
    cases hfw : fwdWalk cal s f 0 d with
    | none => rw [hfw] at hed; simp at hed
    | some e1 =>
      rw [hfw] at hed
      simp only [Except.ok.injEq] at hed
      subst hed
      obtain ⟨hwe, hle, hcount⟩ := fwdWalk_sound f 0 d e1 hfw
      rw [add_zero] at hle hcount
      rw [max_eq_left hd] at hcount
      refine ⟨hle, hwe, hcount, ?_⟩
      intro hd1 hws
      by_contra hne
      have hlt : s < e1 := lt_of_le_of_ne hle (fun h => hne h.symm)
      have h2 : 1 ≤ workCount cal (s + 1) e1 :=
        workCount_pos' (by omega) hwe
      rw [workCount_peel (le_of_lt hlt), hws] at hcount
      simp at hcount
      omega

/-- Witness for C2 at Task A of the spec's concrete scenario:
`start = 2024-01-01` (a Monday), `duration = 5`, and `end_date()`
evaluates to 2024-01-05, which the theorem certifies as the 5th
working day from the start. -/
theorem c2_end_counts_duration_working_days_witness :
    Task.end_date defaultCal 100 taskA = .ok (ymdToOrdinal 2024 1 5) ∧
    ymdToOrdinal 2024 1 1 ≤ ymdToOrdinal 2024 1 5 ∧
    nonWorked defaultCal (ymdToOrdinal 2024 1 5) = false ∧
    (workCount defaultCal (ymdToOrdinal 2024 1 1) (ymdToOrdinal 2024 1 5) : ℤ) = 5 := by
  have h := c2_end_counts_duration_working_days defaultCal 100 taskA 5
    (ymdToOrdinal 2024 1 1) (ymdToOrdinal 2024 1 5) rfl (by norm_num) rfl rfl rfl
  exact ⟨rfl, h.1, h.2.1, h.2.2.1⟩

lemma projFoldStart_min (ev : PItem → Except Err (Option ℤ)) :
    ∀ (ms : List PItem) (ds : List ℤ) (first : ℤ),
      List.Forall₂ (fun m v => ev m = .ok (some v)) ms ds →
      projFoldStart ev (some first) ms = .ok (some (ds.foldl min first)) := by
  intro ms
  induction ms with
  | nil =>
    intro ds first h
    cases h
    rfl
  | cons m mr ih =>
    intro ds first h
    cases h with
    | cons hm htl =>
      rename_i v vs
      simp only [projFoldStart, hm, pyLtOpt]
      have harg : (if (decide (v < first) : Bool) then some v else some first)
          = some (min first v) := by
        rcases lt_or_le v first with hlt | hle
        · simp [hlt, min_eq_right (le_of_lt hlt)]
        · simp [not_lt.2 hle, min_eq_left hle]
      rw [harg, ih vs (min first v) htl]
      rfl

lemma projFoldEnd_max (ev : PItem → Except Err ℤ) :
    ∀ (ms : List PItem) (ds : List ℤ) (last : ℤ),
      List.Forall₂ (fun m v => ev m = .ok v) ms ds →
      projFoldEnd ev last ms = .ok (ds.foldl max last) := by
  intro ms
  induction ms with
  | nil =>
    intro ds last h
    cases h
    rfl
  | cons m mr ih =>
    intro ds last h
    cases h with
    | cons hm htl =>
      rename_i v vs
      simp only [projFoldEnd, hm]
      have harg : (if last < v then v else last) = max last v := by
        rcases lt_or_le last v with hlt | hle
        · rw [if_pos hlt, max_eq_right (le_of_lt hlt)]
        · rw [if_neg (not_lt.2 hle), max_eq_left hle]
      rw [harg, ih vs (max last v) htl]
      rfl

/-- C6.  `Project.start_date`/`end_date`: an empty project returns the
sentinel dates 9999-01-01 / 1970-01-01 (and only logs a warning —
the call does not fail); a non-empty project whose members all resolve
returns the minimum member start and the maximum member end (members
being tasks or recursively resolved sub-projects). -/
theorem c6_project_min_max :
    (∀ (cal : Cal) (f : ℕ) (name : String),
      Project.start_date cal (f + 1) name [] = .ok (some date9999) ∧
      Project.end_date cal (f + 1) name [] = .ok date1970) ∧
    (∀ (cal : Cal) (f : ℕ) (name : String) (ms : List PItem)
        (d e : ℤ) (dr er : List ℤ),
      List.Forall₂ (fun m v => itemStart cal f m = .ok (some v)) ms (d :: dr) →
      List.Forall₂ (fun m v => itemEnd cal f m = .ok v) ms (e :: er) →
      Project.start_date cal (f + 1) name ms = .ok (some (dr.foldl min d)) ∧
      Project.end_date cal (f + 1) name ms = .ok (er.foldl max e)) := by
  constructor
  · intro cal f name
    exact ⟨rfl, rfl⟩
  · intro cal f name ms d e dr er hs he
    cases hs with
    | cons hm hstl =>
      rename_i m mr
      cases he with
      | cons hm2 hetl =>
        constructor
        · show itemStart cal (f + 1) (.proj name (m :: mr)) = _
          simp only [itemStart, hm]
          rw [projFoldStart_min (itemStart cal f) (m :: mr) (d :: dr) d
            (List.Forall₂.cons hm hstl)]
          simp
        · show itemEnd cal (f + 1) (.proj name (m :: mr)) = _
          simp only [itemEnd, hm2]
          rw [projFoldEnd_max (itemEnd cal f) (m :: mr) (e :: er) e
            (List.Forall₂.cons hm2 hetl)]
          simp

/-- Witness for C6: a project with the two one-day tasks U1
(2024-01-01) and U2 (2024-01-03) spans exactly 2024-01-01 …
2024-01-03. -/
theorem c6_project_min_max_witness :
    Project.start_date defaultCal 100 "P" [.task taskU1, .task taskU2]
      = .ok (some (ymdToOrdinal 2024 1 1)) ∧
    Project.end_date defaultCal 100 "P" [.task taskU1, .task taskU2]
      = .ok (ymdToOrdinal 2024 1 3) := by
  have h := c6_project_min_max.2 defaultCal 99 "P" [.task taskU1, .task taskU2]
    (ymdToOrdinal 2024 1 1) (ymdToOrdinal 2024 1 1)
    [ymdToOrdinal 2024 1 3] [ymdToOrdinal 2024 1 3]
    (List.Forall₂.cons rfl (List.Forall₂.cons rfl List.Forall₂.nil))
    (List.Forall₂.cons rfl (List.Forall₂.cons rfl List.Forall₂.nil))
  have e1 : List.foldl min (ymdToOrdinal 2024 1 1) [ymdToOrdinal 2024 1 3]
      = ymdToOrdinal 2024 1 1 := by decide
  have e2 : List.foldl max (ymdToOrdinal 2024 1 1) [ymdToOrdinal 2024 1 3]
      = ymdToOrdinal 2024 1 3 := by decide
  exact ⟨h.1.trans (by rw [e1]), h.2.trans (by rw [e2])⟩

lemma conflictScan_mem (cal : Cal) (rn tn : String) (av : ℤ → Bool) :
    ∀ (n : ℕ) (cd : ℤ) (cr : String) (cdt : ℤ) (ct : String),
      Conflict.mk cr cdt ct ∈ conflictScan cal rn tn av cd n ↔
        cr = rn ∧ ct = tn ∧ cd ≤ cdt ∧ cdt < cd + n ∧
          (decide (weekday cdt ∉ cal.notWorked) && !av cdt) = true := by
  intro n
  induction n with
  | zero =>
    intro cd cr cdt ct
    simp only [conflictScan, List.not_mem_nil, false_iff, not_and]
    intro _ _ h1 h2
    omega
  | succ n ih =>
    intro cd cr cdt ct
    simp only [conflictScan]
    split
    · rename_i hcond
      rw [List.mem_cons, ih (cd + 1) cr cdt ct]
      constructor
      · rintro (heq | ⟨h1, h2, h3, h4, h5⟩)
        · obtain ⟨rfl, rfl, rfl⟩ :
              cr = rn ∧ cdt = cd ∧ ct = tn := by
            injection heq with e1 e2 e3
            exact ⟨e1, e2, e3⟩
          exact ⟨rfl, rfl, le_refl _, by push_cast; omega, hcond⟩
        · exact ⟨h1, h2, by omega, by push_cast at h4 ⊢; omega, h5⟩
      · rintro ⟨rfl, rfl, h3, h4, h5⟩
        rcases eq_or_lt_of_le h3 with heq | hlt
        · subst heq
          exact Or.inl rfl
        · right
          exact ⟨rfl, rfl, by omega, by push_cast at h4 ⊢; omega, h5⟩
    · rename_i hcond
      rw [ih (cd + 1) cr cdt ct]
      constructor
      · rintro ⟨h1, h2, h3, h4, h5⟩
        exact ⟨h1, h2, by omega, by push_cast at h4 ⊢; omega, h5⟩
      · rintro ⟨rfl, rfl, h3, h4, h5⟩
        rcases eq_or_lt_of_le h3 with heq | hlt
        · subst heq
          exact absurd h5 hcond
        · exact ⟨rfl, rfl, by omega, by push_cast at h4 ⊢; omega, h5⟩

lemma foldl_append_eq_bind {α β : Type} (g : α → List β) :
    ∀ (rs : List α) (init : List β),
      rs.foldl (fun acc r => acc ++ g r) init = init ++ rs.flatMap g := by
  intro rs
  induction rs with
  | nil => intro init; simp
  | cons r rs ih =>
    intro init
    simp only [List.foldl_cons, ih, List.flatMap_cons, List.append_assoc]

/-- C7, amended.  A task with `None` resources yields no conflicts; for
a resolved task with resource list `rs`, the conflict sequence contains
the record `{resource := rn, date := dt, task := tn}` exactly when some
assigned resource has that name, `tn` is the task's name, `dt` lies in
the resolved span, the weekday of `dt` is not a configured non-working
weekday — the global vacation list is NOT consulted by this check — and
that resource is unavailable on `dt`. -/
theorem c7_conflicts_characterization :
    (∀ (cal : Cal) (fuel : ℕ) (t : Task),
      t.resources = none → check_conflicts cal fuel t = .ok []) ∧
    (∀ (cal : Cal) (fuel : ℕ) (t : Task) (rs : List Resource) (s ed : ℤ),
      t.resources = some rs →
      Task.start_date cal fuel t = .ok (some s) →
      Task.end_date cal fuel t = .ok ed →
      ∃ L, check_conflicts cal fuel t = .ok L ∧
        ∀ (cr : String) (dt : ℤ) (ct : String),
          Conflict.mk cr dt ct ∈ L ↔
            ∃ r ∈ rs, cr = r.name ∧ ct = t.name ∧ s ≤ dt ∧ dt ≤ ed ∧
              weekday dt ∉ cal.notWorked ∧ r.available dt = false) := by
  constructor
  · intro cal fuel t hres
    simp [check_conflicts, hres]
  · intro cal fuel t rs s ed hres hsd hed
    cases rs with
    | nil =>
      refine ⟨[], by simp [check_conflicts, hres], ?_⟩
      intro cr dt ct
      simp
    | cons r0 rtl =>
      have hcc : check_conflicts cal fuel t
          = .ok ((r0 :: rtl).foldl
              (fun acc r =>
                acc ++ conflictScan cal r.name t.name r.available s
                  (ed - s + 1).toNat) []) := by
        simp only [check_conflicts, hres, hsd, hed]
      refine ⟨_, hcc, ?_⟩
      intro cr dt ct
      rw [foldl_append_eq_bind, List.nil_append, List.mem_flatMap]
      constructor
      · rintro ⟨r, hr, hmem⟩
        rw [conflictScan_mem] at hmem
        obtain ⟨h1, h2, h3, h4, h5⟩ := hmem
        rw [Bool.and_eq_true, decide_eq_true_eq, Bool.not_eq_true'] at h5
        exact ⟨r, hr, h1, h2, h3, by omega, h5.1, h5.2⟩
      · rintro ⟨r, hr, h1, h2, h3, h4, h5, h6⟩
        refine ⟨r, hr, ?_⟩
        rw [conflictScan_mem]
        refine ⟨h1, h2, h3, by omega, ?_⟩
        rw [Bool.and_eq_true, decide_eq_true_eq, Bool.not_eq_true']
        exact ⟨h5, h6⟩

/-- Counterexample to C7 as stated: 2024-01-02 is a global vacation
date (hence not a working day under the global calendar), yet the
conflict scan for `taskR` — which spans 2024-01-01 … 2024-01-03 —
records resource R's unavailability on exactly that vacation day,
because the source only filters on `cday.weekday() not in
_not_worked_days()` and never consults `VACATIONS`. -/
theorem c7_conflicts_counterexample :
    check_conflicts calVac 100 taskR
      = .ok [⟨"R", ymdToOrdinal 2024 1 2, "T7"⟩] ∧
    ymdToOrdinal 2024 1 2 ∈ calVac.vacations ∧
    nonWorked calVac (ymdToOrdinal 2024 1 2) = true :=
  ⟨rfl, by decide, by decide⟩

/-- Witness for C7 at the concrete `taskR` scenario (and the
no-resource task A). -/
theorem c7_conflicts_characterization_witness :
    check_conflicts defaultCal 100 taskA = .ok [] ∧
    ∃ L, check_conflicts calVac 100 taskR = .ok L ∧
      ∀ (cr : String) (dt : ℤ) (ct : String),
        Conflict.mk cr dt ct ∈ L ↔
          ∃ r ∈ [resR], cr = r.name ∧ ct = taskR.name ∧
            ymdToOrdinal 2024 1 1 ≤ dt ∧ dt ≤ ymdToOrdinal 2024 1 3 ∧
            weekday dt ∉ calVac.notWorked ∧ r.available dt = false :=
  ⟨c7_conflicts_characterization.1 defaultCal 100 taskA rfl,
   c7_conflicts_characterization.2 calVac 100 taskR [resR]
     (ymdToOrdinal 2024 1 1) (ymdToOrdinal 2024 1 3) rfl rfl rfl⟩

/-- C8.  Constructing a task with zero or three of
`{start, stop, duration}` given, outside the duration-plus-dependencies
fallback, fires the error-level diagnostic of `Task.__init__` (the
`raise ValueError` is commented out in the source), yet construction
succeeds and the object carries exactly the given fields, with
`depends_of` normalized to a list or `None`. -/
theorem c8_malformed_spec_diagnostic_not_raise :
    ∀ (name : String) (start stop : Option ℤ) (duration : Option ℤ)
      (dep : DependsArg) (res : Option (List Resource)),
      ((start = none ∧ stop = none ∧ duration = none) ∨
        (start ≠ none ∧ stop ≠ none ∧ duration ≠ none)) →
      (duration = none ∨ dep = .noneArg) →
      (taskInit name start stop duration dep res).1 = true ∧
      (taskInit name start stop duration dep res).2 =
        Task.mk name start stop duration dep.normalize res := by
  intro name start stop duration dep res hanchor hfb
  refine ⟨?_, rfl⟩
  rcases hanchor with ⟨rfl, rfl, rfl⟩ | ⟨h1, h2, h3⟩
  · simp [taskInit]
  · obtain ⟨a, rfl⟩ := Option.ne_none_iff_exists'.mp h1
    obtain ⟨b, rfl⟩ := Option.ne_none_iff_exists'.mp h2
    obtain ⟨c, rfl⟩ := Option.ne_none_iff_exists'.mp h3
    rcases hfb with h | rfl
    · exact absurd h (by simp)
    · simp [taskInit, DependsArg.isNoneArg]

/-- Witness for C8: a fully unanchored task (zero of the three limits
given) is constructed anyway, with the diagnostic fired. -/
theorem c8_malformed_spec_diagnostic_not_raise_witness :
    (taskInit "X" none none none .noneArg none).1 = true ∧
    (taskInit "X" none none none .noneArg none).2 =
      Task.mk "X" none none none none none :=
  c8_malformed_spec_diagnostic_not_raise "X" none none none .noneArg none
    (Or.inl ⟨rfl, rfl, rfl⟩) (Or.inl rfl)

lemma addRange_mem :
    ∀ (n : ℕ) (vac : List ℤ) (s x : ℤ),
      x ∈ addRange vac s n ↔ x ∈ vac ∨ (s ≤ x ∧ x < s + n) := by
  intro n
  induction n with
  | zero =>
    intro vac s x
    simp only [addRange, Nat.cast_zero, add_zero]
    constructor
    · exact Or.inl
    · rintro (h | ⟨h1, h2⟩)
      · exact h
      · omega
  | succ n ih =>
    intro vac s x
    simp only [addRange]
    rw [ih]
    have hv : x ∈ (if s ∈ vac then vac else vac ++ [s]) ↔ (x ∈ vac ∨ x = s) := by
      split
      · rename_i hs
        constructor
        · exact Or.inl
        · rintro (h | rfl)
          · exact h
          · exact hs
      · simp [List.mem_append]
    rw [hv]
    push_cast
    constructor
    · rintro ((h | rfl) | ⟨h1, h2⟩)
      · exact Or.inl h
      · right; omega
      · right; omega
    · rintro (h | ⟨h1, h2⟩)
      · exact Or.inl (Or.inl h)
      · by_cases hx : x = s
        · exact Or.inl (Or.inr hx)
        · right; omega

lemma addRange_nodup :
    ∀ (n : ℕ) (vac : List ℤ) (s : ℤ), vac.Nodup → (addRange vac s n).Nodup := by
  intro n
  induction n with
  | zero => intro vac s h; exact h
  | succ n ih =>
    intro vac s h
    simp only [addRange]
    apply ih
    split
    · exact h
    · rename_i hs
      rw [List.nodup_append]
      refine ⟨h, List.nodup_singleton s, ?_⟩
      intro a ha
      simp only [List.mem_singleton]
      intro hae
      subst hae
      exact hs ha

lemma addRange_eq_of_subset :
    ∀ (n : ℕ) (vac : List ℤ) (s : ℤ),
      (∀ x, s ≤ x → x < s + n → x ∈ vac) → addRange vac s n = vac := by
  intro n
  induction n with
  | zero => intro vac s _; rfl
  | succ n ih =>
    intro vac s h
    have hs : s ∈ vac := h s le_rfl (by push_cast; omega)
    simp only [addRange, if_pos hs]
    apply ih
    intro x h1 h2
    exact h x (by omega) (by push_cast at h2 ⊢; omega)

/-- C10.  `add_vacations` adds exactly the dates of the closed range
`[s, e]` (just `s` when `e` is absent), each only if not already
present; the vacation list therefore stays duplicate-free and a
repeated identical call leaves it unchanged. -/
theorem c10_add_vacations_range_nodup_idem :
    ∀ (vac : List ℤ) (s : ℤ) (e : Option ℤ),
      (∀ x, x ∈ add_vacations vac s e ↔
        x ∈ vac ∨ (e = none ∧ x = s) ∨ ∃ d, e = some d ∧ s ≤ x ∧ x ≤ d) ∧
      (vac.Nodup → (add_vacations vac s e).Nodup) ∧
      add_vacations (add_vacations vac s e) s e = add_vacations vac s e := by
  intro vac s e
  cases e with
  | none =>
    refine ⟨?_, ?_, ?_⟩
    · intro x
      simp only [add_vacations]
      split
      · rename_i hs
        constructor
        · exact fun h => Or.inl h
        · rintro (h | ⟨-, rfl⟩ | ⟨d, hd, -⟩)
          · exact h
          · exact hs
          · cases hd
      · rename_i hs
        simp only [List.mem_append, List.mem_singleton]
        constructor
        · rintro (h | rfl)
          · exact Or.inl h
          · exact Or.inr (Or.inl ⟨by simp, rfl⟩)
        · rintro (h | ⟨-, rfl⟩ | ⟨d, hd, -⟩)
          · exact Or.inl h
          · exact Or.inr rfl
          · cases hd
    · intro h
      simp only [add_vacations]
      split
      · exact h
      · rename_i hs
        rw [List.nodup_append]
        refine ⟨h, List.nodup_singleton s, ?_⟩
        intro a ha
        simp only [List.mem_singleton]
        intro hae
        subst hae
        exact hs ha
    · by_cases hs : s ∈ vac
      · simp [add_vacations, hs]
      · simp [add_vacations, hs, List.mem_append]
  | some d =>
    refine ⟨?_, ?_, ?_⟩
    · intro x
      simp only [add_vacations]
      rw [addRange_mem]
      constructor
      · rintro (h | ⟨h1, h2⟩)
        · exact Or.inl h
        · exact Or.inr (Or.inr ⟨d, rfl, h1, by omega⟩)
      · rintro (h | ⟨hne, -⟩ | ⟨d1, hd, h1, h2⟩)
        · exact Or.inl h
        · cases hne
        · injection hd with hd
          subst hd
          exact Or.inr ⟨h1, by omega⟩
    · intro h
      exact addRange_nodup _ _ _ h
    · simp only [add_vacations]
      apply addRange_eq_of_subset
      intro x h1 h2
      rw [addRange_mem]
      exact Or.inr ⟨h1, h2⟩

/-- Witness for C10 on the concrete list `[3]` with the range `[5, 7]`:
membership, preserved deduplication and idempotence. -/
theorem c10_add_vacations_range_nodup_idem_witness :
    (((6 : ℤ) ∈ add_vacations [3] 5 (some 7)) ↔
      (6 : ℤ) ∈ ([3] : List ℤ) ∨ ((some 7 : Option ℤ) = none ∧ (6 : ℤ) = 5) ∨
        ∃ d, (some 7 : Option ℤ) = some d ∧ 5 ≤ (6 : ℤ) ∧ (6 : ℤ) ≤ d) ∧
    (add_vacations [3] 5 (some 7)).Nodup ∧
    add_vacations (add_vacations [3] 5 (some 7)) 5 (some 7)
      = add_vacations [3] 5 (some 7) :=
  ⟨(c10_add_vacations_range_nodup_idem [3] 5 (some 7)).1 6,
   (c10_add_vacations_range_nodup_idem [3] 5 (some 7)).2.1 (by decide),
   (c10_add_vacations_range_nodup_idem [3] 5 (some 7)).2.2⟩

/-- Witness for C5 at Task A: the cached second calls return the
first-call values. -/
theorem c5_repeated_calls_identical_witness :
    Task.startDateCached defaultCal 100 taskA (some (ymdToOrdinal 2024 1 1))
      = .ok (some (ymdToOrdinal 2024 1 1), some (ymdToOrdinal 2024 1 1)) ∧
    Task.endDateCached defaultCal 100 taskA (some (ymdToOrdinal 2024 1 5))
      = .ok (ymdToOrdinal 2024 1 5, some (ymdToOrdinal 2024 1 5)) :=
  ⟨((c5_repeated_calls_identical defaultCal 100 taskA).1 _ _ rfl).2,
   ((c5_repeated_calls_identical defaultCal 100 taskA).2 _ _ rfl).2⟩

end Gantt
